import Mathlib

/-!
Verification of the CSV analysis script (src/histogram.py) against its
natural-language specification.

The script is a Streamlit app: per uploaded file it decodes the bytes with
pandas read_csv (UTF-8 first, Shift_JIS retry on UnicodeDecodeError), detects
numeric columns, lets the user select columns (default: first
max_cols_default numeric columns), and renders describe() statistics, a
histogram over the non-null values of each selected column, and — when the
checkbox is on and there are at least two numeric columns — a correlation
heatmap of df[numeric_cols].corr().

We embed the dataframe-level data (a Dataset of named, typed columns), the
pandas operations the script calls (describe, corr, dropna, select_dtypes),
the byte-level ingestion (UTF-8 validation, Shift_JIS decoding, CSV parsing)
and the per-file control flow of the script, and prove the specification
claims about them.  Cell values are exact rationals; pandas NaN results
(correlation of a constant column) are represented explicitly rather than
as a float.
-/

namespace Histogram

/-- A cell of a dataframe after pandas read_csv type inference: a number
(pandas int64/float64, modelled as an exact rational), a missing value
(NaN), or a non-numeric (object dtype) string. -/
inductive Val where
  | num (q : ℚ)
  | null
  | str (s : String)
deriving DecidableEq, Repr

/-- One named column of a dataframe. -/
structure Column where
  name : String
  values : List Val
deriving DecidableEq, Repr

/-- A Dataset: the decoded tabular content of one uploaded file, a list of
named columns in file order. -/
structure Dataset where
  cols : List Column
deriving DecidableEq, Repr

/-- A column has numeric dtype (pandas int64/float64) when every stored
value is a number or a missing value: this is how read_csv types a CSV
column, and select_dtypes(include=[np.number]) keeps exactly these. -/
def Column.isNumericB (c : Column) : Bool :=
  c.values.all fun v => match v with
    | .str _ => false
    | _ => true

/-- Embedding of df.select_dtypes(include=[np.number]).columns.tolist()
(src/histogram.py line 63): the names of the numeric columns, in the
Dataset's column order. -/
def numericCols (df : Dataset) : List String :=
  (df.cols.filter fun c => c.isNumericB).map fun c => c.name

/-- The values stored under a column name (first match, as pandas indexing
df[col] resolves a label). -/
def colValues (df : Dataset) (name : String) : List Val :=
  match df.cols.find? fun c => c.name = name with
  | some c => c.values
  | none => []

/-- Embedding of Series.dropna (src/histogram.py line 92): the numeric
entries of a column with missing values removed, order preserved. -/
def dropna : List Val → List ℚ
  | [] => []
  | .num q :: rest => q :: dropna rest
  | .null :: rest => dropna rest
  | .str _ :: rest => dropna rest

/-- The non-null numeric entries of a column (the data describe() and
histplot operate on). -/
theorem dropna_mem (l : List Val) (q : ℚ) : q ∈ dropna l ↔ Val.num q ∈ l := by
  induction l with
  | nil => simp [dropna]
  | cons v rest ih =>
    cases v with
    | num p => simp [dropna, ih]
    | null => simp [dropna, ih]
    | str s => simp [dropna, ih]

theorem dropna_length (l : List Val) :
    (dropna l).length = (l.filter fun v => match v with | .num _ => true | _ => false).length := by
  induction l with
  | nil => rfl
  | cons v rest ih =>
    cases v with
    | num p => simp [dropna, List.filter, ih]
    | null => simp [dropna, List.filter, ih]
    | str s => simp [dropna, List.filter, ih]

/-- The sorted non-null values of a column, as numpy/pandas sort them for
quantile computation. -/
def sortedVals (l : List Val) : List ℚ :=
  (dropna l).insertionSort (· ≤ ·)

theorem sortedVals_sorted (l : List Val) : (sortedVals l).Sorted (· ≤ ·) :=
  List.sorted_insertionSort _ _

theorem sortedVals_perm (l : List Val) : (sortedVals l).Perm (dropna l) :=
  List.perm_insertionSort _ _

/-- Linear-interpolation quantile, as numpy percentile / pandas quantile
with the default interpolation compute it on an already sorted list s of
length n: position h = q*(n-1), result s[floor h] + (h - floor h) * (s[floor h + 1] - s[floor h]). -/
def quantileSorted (s : List ℚ) (q : ℚ) : ℚ :=
  let n := s.length
  let h : ℚ := q * ((n : ℚ) - 1)
  let i : ℕ := ⌊h⌋₊
  let lo := s.getD i 0
  let hi := s.getD (i + 1) lo
  lo + (h - (i : ℚ)) * (hi - lo)

/-- The eight summary values pandas Series.describe() reports for a numeric
column.  The standard deviation pandas prints is the square root of the
sample variance (ddof = 1); we carry that variance exactly (field var)
since the root is irrational in general, and as an Option: with fewer than
two observations the ddof = 1 divisor is zero, pandas divides 0 by 0 and
the reported std is NaN, modelled as none.  All fields are computed on the
non-null values only. -/
structure DescribeOut where
  count : ℕ
  mean : ℚ
  var : Option ℚ
  min : ℚ
  q25 : ℚ
  q50 : ℚ
  q75 : ℚ
  max : ℚ
deriving DecidableEq, Repr

/-- Embedding of df[col].describe() (src/histogram.py line 88) for a
numeric column: count of non-null values, their mean, sample variance
(ddof = 1; the reported std is its square root, and is NaN — var = none —
when fewer than two values are observed), minimum, the three quartiles by
linear interpolation, and maximum. -/
def describe (l : List Val) : DescribeOut :=
  let xs := dropna l
  let s := sortedVals l
  let n := xs.length
  let m : ℚ := xs.sum / (n : ℚ)
  { count := n
    mean := m
    var := if 2 ≤ n then some (((xs.map fun x => (x - m) ^ 2).sum) / ((n : ℚ) - 1)) else none
    min := s.headD 0
    q25 := quantileSorted s (1/4)
    q50 := quantileSorted s (1/2)
    q75 := quantileSorted s (3/4)
    max := s.getLastD 0 }

/-- The reported standard deviation: describe() prints sqrt of the sample
variance; this predicate says s is that reported value.  It is
unsatisfiable when the variance is the 0/0 NaN (var = none), as no real
number is NaN. -/
def DescribeOut.stdIs (d : DescribeOut) (s : ℝ) : Prop :=
  0 ≤ s ∧ ∃ v : ℚ, d.var = some v ∧ s ^ 2 = (v : ℝ)

/-! ## Ingestion: byte-level decoding and CSV parsing

The script reads each uploaded file with pandas read_csv.  We model the
byte stream as a list of naturals (byte values 0..255), the decoded text
as a list of Unicode code points, and implement the UTF-8 decoder (RFC
3629: overlong forms, surrogates and values above U+10FFFF rejected, as
Python's utf-8 codec rejects them) and the Shift_JIS decoder (single
bytes 0x00-0x7F and 0xA1-0xDF; lead bytes 0x81-0x9F/0xE0-0xEF with trail
bytes 0x40-0x7E/0x80-0xFC; a two-byte sequence is mapped to the
placeholder code point 0x10000 + lead*256 + trail, which is faithful for
everything here since those code points are never the ASCII delimiters
the CSV parser looks at). -/

/-- Is b a UTF-8 continuation byte (0x80-0xBF)? -/
def isCont (b : ℕ) : Bool := 0x80 ≤ b ∧ b ≤ 0xBF

/-- Allowed second byte after a three-byte lead (excludes overlong E0 and
surrogate ED forms). -/
def utf8Second3 (b b1 : ℕ) : Bool :=
  if b = 0xE0 then 0xA0 ≤ b1 ∧ b1 ≤ 0xBF
  else if b = 0xED then 0x80 ≤ b1 ∧ b1 ≤ 0x9F
  else isCont b1

/-- Allowed second byte after a four-byte lead (excludes overlong F0 and
above-U+10FFFF F4 forms). -/
def utf8Second4 (b b1 : ℕ) : Bool :=
  if b = 0xF0 then 0x90 ≤ b1 ∧ b1 ≤ 0xBF
  else if b = 0xF4 then 0x80 ≤ b1 ∧ b1 ≤ 0x8F
  else isCont b1

/-- Strict UTF-8 decoding of a byte list into code points; none models a
UnicodeDecodeError from Python's utf-8 codec. -/
def utf8Decode : List ℕ → Option (List ℕ)
  | [] => some []
  | b :: rest =>
    if b ≤ 0x7F then (utf8Decode rest).map fun cs => b :: cs
    else
      match rest with
      | [] => none
      | b1 :: r1 =>
        if 0xC2 ≤ b ∧ b ≤ 0xDF then
          if isCont b1 then
            (utf8Decode r1).map fun cs => ((b - 0xC0) * 64 + (b1 - 0x80)) :: cs
          else none
        else
          match r1 with
          | [] => none
          | b2 :: r2 =>
            if 0xE0 ≤ b ∧ b ≤ 0xEF then
              if utf8Second3 b b1 ∧ isCont b2 then
                (utf8Decode r2).map fun cs =>
                  (((b - 0xE0) * 64 + (b1 - 0x80)) * 64 + (b2 - 0x80)) :: cs
              else none
            else
              match r2 with
              | [] => none
              | b3 :: r3 =>
                if 0xF0 ≤ b ∧ b ≤ 0xF4 then
                  if utf8Second4 b b1 ∧ isCont b2 ∧ isCont b3 then
                    (utf8Decode r3).map fun cs =>
                      ((((b - 0xF0) * 64 + (b1 - 0x80)) * 64 + (b2 - 0x80)) * 64
                        + (b3 - 0x80)) :: cs
                  else none
                else none

/-- Shift_JIS single-byte character? -/
def sjisSingle (b : ℕ) : Bool := b ≤ 0x7F ∨ (0xA1 ≤ b ∧ b ≤ 0xDF)

/-- Shift_JIS lead byte of a two-byte character? -/
def sjisLead (b : ℕ) : Bool := (0x81 ≤ b ∧ b ≤ 0x9F) ∨ (0xE0 ≤ b ∧ b ≤ 0xEF)

/-- Shift_JIS trail byte of a two-byte character? -/
def sjisTrail (b : ℕ) : Bool := (0x40 ≤ b ∧ b ≤ 0x7E) ∨ (0x80 ≤ b ∧ b ≤ 0xFC)

/-- Code point of a Shift_JIS single-byte character: ASCII maps to itself,
0xA1-0xDF are the halfwidth katakana block U+FF61-U+FF9F. -/
def sjisChar (b : ℕ) : ℕ := if b ≤ 0x7F then b else 0xFF61 + (b - 0xA1)

/-- Strict Shift_JIS decoding; none models a UnicodeDecodeError. -/
def decodeSjis : List ℕ → Option (List ℕ)
  | [] => some []
  | [b] => if sjisSingle b then some [sjisChar b] else none
  | b :: t :: r =>
    if sjisSingle b then (decodeSjis (t :: r)).map fun cs => sjisChar b :: cs
    else if sjisLead b ∧ sjisTrail t then
      (decodeSjis r).map fun cs => (0x10000 + b * 256 + t) :: cs
    else none

/-- Shift_JIS decoding with errors ignored: undecodable bytes are skipped
instead of raising (Python decoding with the ignore error handler); this
never fails. -/
def decodeSjisIgnore : List ℕ → List ℕ
  | [] => []
  | [b] => if sjisSingle b then [sjisChar b] else []
  | b :: t :: r =>
    if sjisSingle b then sjisChar b :: decodeSjisIgnore (t :: r)
    else if sjisLead b ∧ sjisTrail t then
      (0x10000 + b * 256 + t) :: decodeSjisIgnore r
    else decodeSjisIgnore (t :: r)

/-- Splitting a code-point list on a separator (used for newline and comma
splitting of the decoded text). -/
def splitOn (sep : ℕ) (l : List ℕ) : List (List ℕ) :=
  l.foldr
    (fun b acc =>
      if b = sep then [] :: acc
      else
        match acc with
        | cur :: rest => (b :: cur) :: rest
        | [] => [[b]])
    [[]]

/-- Decimal digit value of a code point, if it is one. -/
def digitVal (c : ℕ) : Option ℕ :=
  if 0x30 ≤ c ∧ c ≤ 0x39 then some (c - 0x30) else none

/-- Value of a digit string. -/
def digitsVal (cs : List ℕ) : ℚ :=
  cs.foldl (fun a c => a * 10 + ((digitVal c).getD 0 : ℕ)) 0

/-- Is every code point a decimal digit? -/
def allDigits (cs : List ℕ) : Bool := cs.all fun c => (digitVal c).isSome

/-- Numeric parsing of one CSV cell, as pandas type inference accepts a
plain decimal literal: optional sign, digits with at most one decimal
point, at least one digit.  (Scientific notation, inf and nan spellings
are not modelled; no claim depends on them.) -/
def parseNum (cs : List ℕ) : Option ℚ :=
  let signBody : ℚ × List ℕ :=
    match cs with
    | 0x2D :: r => (-1, r)
    | 0x2B :: r => (1, r)
    | r => (1, r)
  let sgn := signBody.1
  let body := signBody.2
  match splitOn 0x2E body with
  | [ip] =>
    if ip ≠ [] ∧ allDigits ip then some (sgn * digitsVal ip) else none
  | [ip, fp] =>
    if ip ++ fp ≠ [] ∧ allDigits ip ∧ allDigits fp then
      some (sgn * (digitsVal ip + digitsVal fp / (10 : ℚ) ^ fp.length))
    else none
  | _ => none

/-- A String from decoded code points (for column names and object cells). -/
def strOf (cs : List ℕ) : String := String.mk (cs.map Char.ofNat)

/-- One CSV cell as a typed dataframe value: empty cell is missing (NaN),
a decimal literal is numeric, anything else is an object string. -/
def cellToVal (cs : List ℕ) : Val :=
  if cs = [] then .null
  else
    match parseNum cs with
    | some q => .num q
    | none => .str (strOf cs)

/-- The errors the script's ingestion can surface.  typeError is the
Python-level TypeError for an unexpected keyword argument. -/
inductive PdError where
  | unicodeDecodeError
  | emptyDataError
  | parserError
  | typeError
deriving DecidableEq, Repr

/-- The CSV-to-dataframe stage of pandas read_csv with its defaults: split
the decoded text into lines (blank lines skipped), the first row is the
header, each later row is split on commas into the columns; a row with
more fields than the header is a ParserError, a short row is padded with
missing values; a file with no rows at all is an EmptyDataError.  Column
dtypes are carried per cell by cellToVal. -/
def parseCsv (text : List ℕ) : Except PdError Dataset :=
  let rows := ((splitOn 0x0A text).filter fun l => l ≠ []).map fun l => splitOn 0x2C l
  match rows with
  | [] => .error .emptyDataError
  | header :: dataRows =>
    if dataRows.any fun r => header.length < r.length then .error .parserError
    else
      .ok ⟨(List.range header.length).map fun j =>
        { name := strOf (header.getD j [])
          values := dataRows.map fun r => cellToVal (r.getD j []) }⟩

/-- The text encoding names the script passes to read_csv. -/
inductive Encoding where
  | utf8
  | shiftJis
deriving DecidableEq, Repr

/-- The keyword arguments of the two read_csv call sites.  pandas read_csv
names its decode-error-handling parameter encoding_errors; errors is not a
parameter of read_csv in any pandas release, so a call passing it is a
call with an unexpected keyword argument, recorded in unknownKwargs. -/
structure ReadCsvArgs where
  encoding : Encoding := .utf8
  unknownKwargs : List String := []
deriving DecidableEq, Repr

/-- Model of a pandas.read_csv call on an in-memory upload.  Python
rejects an unexpected keyword argument with a TypeError before any byte is
read; otherwise the bytes are decoded strictly with the requested encoding
(a failure raising UnicodeDecodeError) and the decoded text is parsed as
CSV. -/
def read_csv (args : ReadCsvArgs) (bs : List ℕ) : Except PdError Dataset :=
  if args.unknownKwargs ≠ [] then .error .typeError
  else
    match (match args.encoding with
      | .utf8 => utf8Decode bs
      | .shiftJis => decodeSjis bs) with
    | none => .error .unicodeDecodeError
    | some text => parseCsv text

/-- Embedding of read_csv_safely (src/histogram.py lines 41-47): try
pd.read_csv(file); if and only if that raises UnicodeDecodeError, seek the
stream back to 0 and call pd.read_csv(file, encoding="shift_jis",
errors="ignore").  The second call passes the keyword errors, which is not
in read_csv's signature (the pandas keyword with that meaning is
encoding_errors). -/
def read_csv_safely (bs : List ℕ) : Except PdError Dataset :=
  match read_csv {} bs with
  | .error .unicodeDecodeError =>
    read_csv { encoding := .shiftJis, unknownKwargs := ["errors"] } bs
  | r => r

/-! ## Correlation

df[numeric_cols].corr() computes, for every ordered pair of numeric
columns, the Pearson coefficient over the rows where both entries are
non-null: r = (n*Sxy - Sx*Sy) / sqrt((n*Sxx - Sx^2) * (n*Syy - Sy^2)).
We carry the three integer-scaled second moments exactly in a CorrEntry;
the float pandas puts in the cell is sxy / sqrt(sxx * syy), and is NaN
exactly when sxx * syy = 0 (a constant or too-short column). -/

/-- The rows where both columns have a numeric value (pandas corr uses
pairwise-complete observations). -/
def pairComplete (xs ys : List Val) : List (ℚ × ℚ) :=
  (xs.zip ys).filterMap fun p =>
    match p with
    | (.num a, .num b) => some (a, b)
    | _ => none

/-- The scaled second moments determining one cell of the correlation
matrix: sxy = n*Σxy - Σx*Σy, sxx = n*Σx² - (Σx)², syy = n*Σy² - (Σy)².
The cell's value is sxy / sqrt(sxx*syy). -/
structure CorrEntry where
  sxy : ℚ
  sxx : ℚ
  syy : ℚ
deriving DecidableEq, Repr

/-- The moments of a list of paired observations. -/
def corrOfPairs (ps : List (ℚ × ℚ)) : CorrEntry :=
  let n : ℚ := ps.length
  let sx := (ps.map fun p => p.1).sum
  let sy := (ps.map fun p => p.2).sum
  { sxy := n * (ps.map fun p => p.1 * p.2).sum - sx * sy
    sxx := n * (ps.map fun p => p.1 ^ 2).sum - sx ^ 2
    syy := n * (ps.map fun p => p.2 ^ 2).sum - sy ^ 2 }

/-- One cell of df[numeric_cols].corr() for a pair of columns. -/
def corrEntry (xs ys : List Val) : CorrEntry :=
  corrOfPairs (pairComplete xs ys)

/-- The real number a CorrEntry's cell displays: r with sxy = r * sqrt(sxx
* syy), provided the denominator is nonzero.  When sxx * syy = 0 pandas
divides zero by zero and the cell is NaN: no real number satisfies this
predicate. -/
def CorrEntry.hasValue (e : CorrEntry) (r : ℝ) : Prop :=
  0 < e.sxx * e.syy ∧ (e.sxy : ℝ) = r * Real.sqrt ((e.sxx : ℝ) * (e.syy : ℝ))

/-- The transposed cell: corr of (ys, xs) in place of (xs, ys). -/
def CorrEntry.transpose (e : CorrEntry) : CorrEntry :=
  { sxy := e.sxy, sxx := e.syy, syy := e.sxx }

/-- Embedding of df[numeric_cols].corr() (src/histogram.py line 100): the
matrix over all numeric columns — not just the selected ones — with rows
and columns in numeric-column order. -/
def corrMatrix (df : Dataset) : List (List CorrEntry) :=
  let ncs := numericCols df
  ncs.map fun a => ncs.map fun b => corrEntry (colValues df a) (colValues df b)

/-! ## The per-file pipeline and the batch loop -/

/-- The sidebar configuration (src/histogram.py lines 24-30): histogram
bin count, KDE overlay, the default number of columns picked per file, and
the correlation-heatmap checkbox. -/
structure Config where
  bins : ℕ := 20
  show_kde : Bool := true
  max_cols_default : ℕ := 5
  show_corr : Bool := true
deriving DecidableEq, Repr

/-- A streamlit slider with bounds lo and hi: whatever position the user
drags it to, the value the script reads lies in [lo, hi] (the widget
clamps; the value v here is the requested position). -/
def sliderVal (lo hi v : ℕ) : ℕ := max lo (min v hi)

/-- Everything the script renders for one successfully decoded file after
the preview: either the no-numeric-data warning (line 65), the
select-columns prompt (line 78), or per selected column its describe()
table and the dropna values handed to histplot, plus the correlation
matrix when it is shown. -/
inductive FileOutput where
  | noNumericWarning
  | selectionPrompt
  | results (stats : List (String × DescribeOut)) (hists : List (String × List ℚ))
      (corr : Option (List (List CorrEntry)))
deriving DecidableEq, Repr

/-- The correlation matrix a file's output contains, if any. -/
def FileOutput.corrPart : FileOutput → Option (List (List CorrEntry))
  | .results _ _ c => c
  | _ => none

/-- The statistics tables a file's output contains. -/
def FileOutput.statsPart : FileOutput → List (String × DescribeOut)
  | .results s _ _ => s
  | _ => []

/-- The histogram data series a file's output contains. -/
def FileOutput.histsPart : FileOutput → List (String × List ℚ)
  | .results _ h _ => h
  | _ => []

/-- Embedding of the per-file body of the upload loop (src/histogram.py
lines 62-105) for an already decoded Dataset: detect numeric columns; if
none, warn and move on; otherwise the multiselect offers numeric_cols with
default numeric_cols[:max_cols_default] — userSel is the user's current
selection, none meaning the untouched default; with an empty selection
only the prompt is shown; otherwise each selected column gets
df[col].describe() and a histogram of df[col].dropna(), and when show_corr
is on and there are at least two numeric columns, df[numeric_cols].corr()
is rendered. -/
def processFile (cfg : Config) (df : Dataset) (userSel : Option (List String)) :
    FileOutput :=
  let ncs := numericCols df
  if ncs.length = 0 then .noNumericWarning
  else
    let default_pick := ncs.take cfg.max_cols_default
    let cols_to_plot := userSel.getD default_pick
    if cols_to_plot.length = 0 then .selectionPrompt
    else
      .results
        (cols_to_plot.map fun c => (c, describe (colValues df c)))
        (cols_to_plot.map fun c => (c, dropna (colValues df c)))
        (if cfg.show_corr ∧ 2 ≤ ncs.length then some (corrMatrix df) else none)

/-- One uploaded file: its name, raw bytes, and the state of its
multiselect widget (none = still the default). -/
structure RawFile where
  name : String
  bytes : List ℕ
  userSel : Option (List String) := none

/-- What one file's section of the page shows: its output, or the fatal
exception streamlit displays when ingestion raised. -/
inductive Report where
  | fatal (e : PdError)
  | out (o : FileOutput)
deriving DecidableEq, Repr

/-- Embedding of the upload loop (src/histogram.py lines 49-105): files
are processed in order; read_csv_safely is called outside any try block,
so if it raises, streamlit shows the exception and the script run stops —
the remaining files of the batch are not processed. -/
def runBatch (cfg : Config) : List RawFile → List (String × Report)
  | [] => []
  | f :: fs =>
    match read_csv_safely f.bytes with
    | .error e => [(f.name, .fatal e)]
    | .ok df => (f.name, .out (processFile cfg df f.userSel)) :: runBatch cfg fs

/-! ## Theorems -/

/-- Unfolding of processFile into its decision chain. -/
theorem processFile_eq (cfg : Config) (df : Dataset) (sel : Option (List String)) :
    processFile cfg df sel =
      if (numericCols df).length = 0 then .noNumericWarning
      else if (sel.getD ((numericCols df).take cfg.max_cols_default)).length = 0 then
        .selectionPrompt
      else
        .results
          ((sel.getD ((numericCols df).take cfg.max_cols_default)).map fun c =>
            (c, describe (colValues df c)))
          ((sel.getD ((numericCols df).take cfg.max_cols_default)).map fun c =>
            (c, dropna (colValues df c)))
          (if cfg.show_corr = true ∧ 2 ≤ (numericCols df).length then some (corrMatrix df)
            else none) := rfl

/-- Unfolding the batch loop at a file whose ingestion succeeds. -/
theorem runBatch_cons_ok (cfg : Config) (f : RawFile) (fs : List RawFile) (df : Dataset)
    (h : read_csv_safely f.bytes = Except.ok df) :
    runBatch cfg (f :: fs)
      = (f.name, .out (processFile cfg df f.userSel)) :: runBatch cfg fs := by
  simp only [runBatch]
  rw [h]

/-- Unfolding the batch loop at a file whose ingestion raises: the script
run stops there, nothing after this file is reported. -/
theorem runBatch_cons_err (cfg : Config) (f : RawFile) (fs : List RawFile) (e : PdError)
    (h : read_csv_safely f.bytes = Except.error e) :
    runBatch cfg (f :: fs) = [(f.name, .fatal e)] := by
  simp only [runBatch]
  rw [h]

/-- C5: for every Dataset whose numeric column set has fewer than two
members, the correlation step is skipped entirely — the file's output
carries no correlation matrix — even when the heatmap display option is
enabled; the output is a normal one (a policy gate, not an error). -/
theorem C5_corr_skipped_below_two_numeric (cfg : Config) (df : Dataset)
    (sel : Option (List String)) (_hshow : cfg.show_corr = true)
    (hlt : (numericCols df).length < 2) :
    (processFile cfg df sel).corrPart = none := by
  have hc : ¬ (cfg.show_corr = true ∧ 2 ≤ (numericCols df).length) := by
    rintro ⟨-, hle⟩
    exact absurd hle (Nat.not_le.mpr hlt)
  rw [processFile_eq, if_neg hc]
  split_ifs with h0 h1
  · rfl
  · rfl
  · rfl

/-- C5 witness: a Dataset with one numeric column, the heatmap checkbox
on, and a nonempty selection: the file is analyzed but its output has no
correlation matrix. -/
theorem C5_corr_skipped_below_two_numeric_witness :
    (processFile {} ⟨[⟨"a", [.num 1, .num 2]⟩]⟩ (some ["a"])).corrPart = none :=
  C5_corr_skipped_below_two_numeric {} ⟨[⟨"a", [.num 1, .num 2]⟩]⟩ (some ["a"])
    rfl (by simp [numericCols, Column.isNumericB])

/-- C6: a Dataset with zero numeric columns produces only the
no-numeric-data warning — no statistics, no histogram, no correlation
matrix — and the batch loop continues with the next file. -/
theorem C6_no_numeric_terminal_warning (cfg : Config) (df : Dataset)
    (sel : Option (List String)) (hz : numericCols df = [])
    (f : RawFile) (fs : List RawFile)
    (hok : read_csv_safely f.bytes = Except.ok df) :
    processFile cfg df sel = .noNumericWarning
    ∧ (processFile cfg df sel).statsPart = []
    ∧ (processFile cfg df sel).histsPart = []
    ∧ (processFile cfg df sel).corrPart = none
    ∧ runBatch cfg (f :: fs) = (f.name, .out .noNumericWarning) :: runBatch cfg fs := by
  have hwarn : ∀ s, processFile cfg df s = .noNumericWarning := by
    intro s
    rw [processFile_eq, if_pos (by rw [hz]; rfl)]
  refine ⟨hwarn sel, ?_, ?_, ?_, ?_⟩
  · rw [hwarn sel]
    rfl
  · rw [hwarn sel]
    rfl
  · rw [hwarn sel]
    rfl
  · rw [runBatch_cons_ok cfg f fs df hok, hwarn f.userSel]

/-- C6 witness: the file s,x (one object column) decodes, has no numeric
columns, yields only the warning, and the next file in the batch would
still be processed (the loop continues). -/
theorem C6_no_numeric_terminal_warning_witness :
    processFile {} ⟨[⟨"s", [.str "x"]⟩]⟩ none = .noNumericWarning
    ∧ runBatch {} [⟨"f1", [0x73, 0x0A, 0x78], none⟩]
        = ("f1", .out .noNumericWarning) :: runBatch {} [] := by
  have h := C6_no_numeric_terminal_warning {} ⟨[⟨"s", [.str "x"]⟩]⟩ none
    (by simp [numericCols, Column.isNumericB]) ⟨"f1", [0x73, 0x0A, 0x78], none⟩ []
    (by simp [read_csv_safely, read_csv, utf8Decode, parseCsv, splitOn, cellToVal,
      parseNum, allDigits, digitsVal, digitVal, strOf, List.range_succ])
  exact ⟨h.1, h.2.2.2.2⟩

/-- C7: numeric column detection returns exactly the names of the columns
whose stored values are all numeric (no object strings), in the Dataset's
original column order (a sublist of the column-name sequence), and running
it twice on the same Dataset yields identical results. -/
theorem C7_numeric_detection_exact_ordered (df : Dataset) :
    (∀ x, x ∈ numericCols df ↔
      ∃ c ∈ df.cols, c.name = x ∧ ∀ v ∈ c.values, ∀ s, v ≠ Val.str s)
    ∧ List.Sublist (numericCols df) (df.cols.map Column.name)
    ∧ numericCols df = numericCols df := by
  refine ⟨?_, (List.filter_sublist df.cols).map Column.name, rfl⟩
  intro x
  unfold numericCols
  simp only [List.mem_map, List.mem_filter]
  constructor
  · rintro ⟨c, ⟨hc, hnum⟩, hx⟩
    refine ⟨c, hc, hx, ?_⟩
    intro v hv s hs
    have hval := List.all_eq_true.mp hnum v hv
    rw [hs] at hval
    simp at hval
  · rintro ⟨c, hc, hx, hstr⟩
    refine ⟨c, ⟨hc, ?_⟩, hx⟩
    rw [Column.isNumericB, List.all_eq_true]
    intro v hv
    cases v with
    | num q => rfl
    | null => rfl
    | str s => exact absurd rfl (hstr _ hv s)

/-- C8: the configured default number of auto-selected columns is an
integer between 1 and 12 (the slider clamps any requested position v into
that range), and with the multiselect untouched the columns analyzed are
the first min(k, n) numeric columns in detection order. -/
theorem C8_default_pick_first_min_k_n (v : ℕ) (cfg : Config) (df : Dataset)
    (hv : cfg.max_cols_default = sliderVal 1 12 v) :
    (1 ≤ cfg.max_cols_default ∧ cfg.max_cols_default ≤ 12)
    ∧ (0 < (numericCols df).length →
        (processFile cfg df none).statsPart.map Prod.fst
            = (numericCols df).take cfg.max_cols_default
        ∧ ((numericCols df).take cfg.max_cols_default).length
            = min cfg.max_cols_default (numericCols df).length
        ∧ (numericCols df).take cfg.max_cols_default
            ++ (numericCols df).drop cfg.max_cols_default = numericCols df) := by
  have hbounds : 1 ≤ cfg.max_cols_default ∧ cfg.max_cols_default ≤ 12 := by
    rw [hv]
    unfold sliderVal
    exact ⟨Nat.le_max_left _ _, Nat.max_le.mpr ⟨by norm_num, Nat.min_le_right _ _⟩⟩
  refine ⟨hbounds, fun hn => ⟨?_, List.length_take _ _, List.take_append_drop _ _⟩⟩
  have h0 : ¬ (numericCols df).length = 0 := Nat.pos_iff_ne_zero.mp hn
  have htake : ¬ ((none : Option (List String)).getD
      ((numericCols df).take cfg.max_cols_default)).length = 0 := by
    rw [Option.getD_none, List.length_take]
    have := lt_min (Nat.lt_of_lt_of_le Nat.zero_lt_one hbounds.1) hn
    omega
  rw [processFile_eq, if_neg h0, if_neg htake]
  simp only [FileOutput.statsPart, Option.getD_none, List.map_map]
  exact List.map_id _

/-- C8 witness: with the slider at its default position 5 and three
numeric columns, the analyzed columns are the first min(5,3) = 3 numeric
columns, and the configured limit 5 lies in 1..12. -/
theorem C8_default_pick_first_min_k_n_witness :
    (processFile {} ⟨[⟨"a", [.num 1]⟩, ⟨"b", [.num 2]⟩, ⟨"c", [.num 3]⟩]⟩ none).statsPart.map
        Prod.fst = ["a", "b", "c"]
    ∧ (1 ≤ ({} : Config).max_cols_default ∧ ({} : Config).max_cols_default ≤ 12) := by
  have h := C8_default_pick_first_min_k_n 5 {}
    ⟨[⟨"a", [.num 1]⟩, ⟨"b", [.num 2]⟩, ⟨"c", [.num 3]⟩]⟩ rfl
  have hn : 0 < (numericCols ⟨[⟨"a", [.num 1]⟩, ⟨"b", [.num 2]⟩, ⟨"c", [.num 3]⟩]⟩).length := by
    simp [numericCols, Column.isNumericB]
  refine ⟨?_, h.1⟩
  rw [(h.2 hn).1]
  simp [numericCols, Column.isNumericB]

/-- C9: every data series handed to the histogram routine is the dropna of
the selected column: exactly the column's numeric entries, in order, with
null/missing entries removed. -/
theorem C9_hist_input_nonnull (cfg : Config) (df : Dataset)
    (sel : Option (List String)) (p : String × List ℚ)
    (hp : p ∈ (processFile cfg df sel).histsPart) :
    p.2 = dropna (colValues df p.1)
    ∧ (∀ q : ℚ, q ∈ p.2 ↔ Val.num q ∈ colValues df p.1)
    ∧ p.2.length = ((colValues df p.1).filter
        fun v => match v with | .num _ => true | _ => false).length := by
  have hq : p.2 = dropna (colValues df p.1) := by
    rw [processFile_eq] at hp
    split_ifs at hp
    · simp [FileOutput.histsPart] at hp
    · simp [FileOutput.histsPart] at hp
    · simp only [FileOutput.histsPart, List.mem_map] at hp
      obtain ⟨c, -, hc⟩ := hp
      rw [← hc]
    · simp only [FileOutput.histsPart, List.mem_map] at hp
      obtain ⟨c, -, hc⟩ := hp
      rw [← hc]
  refine ⟨hq, ?_, ?_⟩
  · intro q
    rw [hq]
    exact dropna_mem _ q
  · rw [hq]
    exact dropna_length _

/-- C9 witness: a column with a null between 1 and 2 contributes the
series [1, 2] to its histogram: the null is dropped, and exactly the
numeric entries remain. -/
theorem C9_hist_input_nonnull_witness :
    (("a", [(1 : ℚ), 2]) : String × List ℚ).2
        = dropna (colValues ⟨[⟨"a", [.num 1, .null, .num 2]⟩]⟩ "a")
    ∧ ((2 : ℚ) ∈ (("a", [(1 : ℚ), 2]) : String × List ℚ).2 ↔
        Val.num 2 ∈ colValues ⟨[⟨"a", [.num 1, .null, .num 2]⟩]⟩ "a") := by
  have h := C9_hist_input_nonnull {} ⟨[⟨"a", [.num 1, .null, .num 2]⟩]⟩ (some ["a"])
    ("a", [(1 : ℚ), 2])
    (by rw [processFile_eq]
        simp [numericCols, Column.isNumericB, FileOutput.histsPart,
          colValues, dropna, List.find?])
  exact ⟨h.1, h.2.1 2⟩

/-- C10: with an empty selected-column set the file's section shows only
the select-columns prompt, so no correlation heatmap is produced either,
even when the heatmap option is on and the Dataset has at least two
numeric columns. -/
theorem C10_empty_selection_no_heatmap (cfg : Config) (df : Dataset)
    (_hshow : cfg.show_corr = true) (h2 : 2 ≤ (numericCols df).length) :
    processFile cfg df (some []) = .selectionPrompt
    ∧ (processFile cfg df (some [])).corrPart = none := by
  have hout : processFile cfg df (some []) = .selectionPrompt := by
    have hsel : ((some ([] : List String)).getD
        ((numericCols df).take cfg.max_cols_default)).length = 0 := rfl
    rw [processFile_eq, if_neg (by omega), if_pos hsel]
  exact ⟨hout, by rw [hout]; rfl⟩

/-- C10 witness: two numeric columns, heatmap on, empty selection: the
output is the prompt and carries no matrix. -/
theorem C10_empty_selection_no_heatmap_witness :
    processFile {} ⟨[⟨"a", [.num 1]⟩, ⟨"b", [.num 2]⟩]⟩ (some []) = .selectionPrompt :=
  (C10_empty_selection_no_heatmap {} ⟨[⟨"a", [.num 1]⟩, ⟨"b", [.num 2]⟩]⟩ rfl
    (by simp [numericCols, Column.isNumericB])).1

/-- C1: evaluation of ingestion at the failing input 0x61 0x0A 0xB1, the
Shift_JIS encoding of a CSV with header a and one halfwidth-katakana cell.
The bytes are invalid UTF-8 yet a valid Shift_JIS CSV (the strict
Shift_JIS decode and the CSV parse both succeed, and a read_csv call with
only the encoding changed returns a Dataset); but the script's fallback
call passes the keyword errors, which pandas read_csv does not have (its
decode-error parameter is encoding_errors), so the retry raises TypeError
and ingestion fails instead of returning a Dataset. -/
theorem C1_fallback_typeError_on_valid_sjis :
    utf8Decode [0x61, 0x0A, 0xB1] = none
    ∧ decodeSjis [0x61, 0x0A, 0xB1] = some [0x61, 0x0A, 0xFF71]
    ∧ parseCsv [0x61, 0x0A, 0xFF71] = Except.ok ⟨[⟨"a", [.str (strOf [0xFF71])]⟩]⟩
    ∧ read_csv { encoding := .shiftJis } [0x61, 0x0A, 0xB1]
        = Except.ok ⟨[⟨"a", [.str (strOf [0xFF71])]⟩]⟩
    ∧ read_csv_safely [0x61, 0x0A, 0xB1] = Except.error .typeError := by
  refine ⟨?_, ?_, ?_, ?_, ?_⟩
  · simp [utf8Decode, isCont]
  · simp [decodeSjis, sjisSingle, sjisLead, sjisChar]
  · simp [parseCsv, splitOn, cellToVal, parseNum, allDigits, digitsVal, digitVal, strOf,
      List.range_succ]
  · simp [read_csv, decodeSjis, sjisSingle, sjisLead, sjisChar, parseCsv, splitOn,
      cellToVal, parseNum, allDigits, digitsVal, digitVal, strOf, List.range_succ]
  · simp [read_csv_safely, read_csv, utf8Decode, isCont, decodeSjis]

/-- C2 counterexample: a batch of two files where the first fails both
ingestion attempts (UnicodeDecodeError on the UTF-8 try, TypeError on the
fallback call) and the second is a perfectly good UTF-8 CSV.  The run
reports only the first file: the second file of the batch is not
processed, contradicting the claim that every other file is still
processed to completion. -/
theorem C2_counterexample_batch_aborts :
    read_csv {} [0x61, 0x0A, 0xB1] = Except.error .unicodeDecodeError
    ∧ read_csv { encoding := .shiftJis, unknownKwargs := ["errors"] } [0x61, 0x0A, 0xB1]
        = Except.error .typeError
    ∧ (∃ df, read_csv_safely [0x61, 0x0A, 0x31] = Except.ok df)
    ∧ runBatch {} [⟨"bad.csv", [0x61, 0x0A, 0xB1], none⟩, ⟨"good.csv", [0x61, 0x0A, 0x31], none⟩]
        = [("bad.csv", .fatal .typeError)] := by
  refine ⟨?_, ?_, ?_, ?_⟩
  · simp [read_csv, utf8Decode, isCont]
  · simp [read_csv]
  · exact ⟨⟨[⟨"a", [.num 1]⟩]⟩, by
      simp [read_csv_safely, read_csv, utf8Decode, parseCsv, splitOn, cellToVal,
        parseNum, allDigits, digitsVal, digitVal, strOf, List.range_succ]⟩
  · rw [runBatch_cons_err]
    simp [read_csv_safely, read_csv, utf8Decode, isCont, decodeSjis]

/-- The names reported by a batch run in which every file ingests
successfully are exactly the file names, in order. -/
theorem runBatch_names_all_ok (cfg : Config) (fs : List RawFile)
    (hok : ∀ g ∈ fs, ∃ df, read_csv_safely g.bytes = Except.ok df) :
    (runBatch cfg fs).map Prod.fst = fs.map RawFile.name := by
  induction fs with
  | nil => rfl
  | cons g gs ih =>
    obtain ⟨df, hg⟩ := hok g (List.mem_cons_self g gs)
    rw [runBatch_cons_ok cfg g gs df hg]
    simp only [List.map_cons]
    rw [ih fun x hx => hok x (List.mem_cons_of_mem g hx)]

/-- C2 (amended): when ingestion fails for one file of a batch (both the
UTF-8 attempt and the fallback call fail), the fatal error is surfaced for
that file and the script run stops there: files before it in the batch are
unaffected and keep their full output, but the remaining files are not
processed. -/
theorem C2_amended_fatal_stops_run (cfg : Config) (pre : List RawFile) (f : RawFile)
    (post : List RawFile) (e : PdError)
    (hpre : ∀ g ∈ pre, ∃ df, read_csv_safely g.bytes = Except.ok df)
    (hf : read_csv_safely f.bytes = Except.error e) :
    runBatch cfg (pre ++ f :: post) = runBatch cfg pre ++ [(f.name, .fatal e)]
    ∧ (runBatch cfg (pre ++ f :: post)).map Prod.fst = pre.map RawFile.name ++ [f.name] := by
  have hmain : runBatch cfg (pre ++ f :: post) = runBatch cfg pre ++ [(f.name, .fatal e)] := by
    induction pre with
    | nil =>
      rw [List.nil_append, runBatch_cons_err cfg f post e hf]
      rfl
    | cons g gs ih =>
      obtain ⟨df, hg⟩ := hpre g (List.mem_cons_self g gs)
      rw [List.cons_append, runBatch_cons_ok cfg g (gs ++ f :: post) df hg,
        runBatch_cons_ok cfg g gs df hg,
        ih fun x hx => hpre x (List.mem_cons_of_mem g hx)]
      rfl
  refine ⟨hmain, ?_⟩
  rw [hmain, List.map_append, runBatch_names_all_ok cfg pre hpre]
  rfl

/-- C2 witness for the amended claim: good, bad, good batch — the first
file keeps its report, the failing second file is reported fatal, and the
third file does not appear. -/
theorem C2_amended_fatal_stops_run_witness :
    runBatch {} [⟨"g1.csv", [0x61, 0x0A, 0x31], none⟩, ⟨"bad.csv", [0x61, 0x0A, 0xB1], none⟩,
        ⟨"g2.csv", [0x61, 0x0A, 0x31], none⟩]
      = runBatch {} [⟨"g1.csv", [0x61, 0x0A, 0x31], none⟩] ++ [("bad.csv", .fatal .typeError)] := by
  have h := C2_amended_fatal_stops_run {} [⟨"g1.csv", [0x61, 0x0A, 0x31], none⟩]
    ⟨"bad.csv", [0x61, 0x0A, 0xB1], none⟩ [⟨"g2.csv", [0x61, 0x0A, 0x31], none⟩] .typeError
    (by
      intro g hg
      simp only [List.mem_singleton] at hg
      subst hg
      exact ⟨⟨[⟨"a", [.num 1]⟩]⟩, by
        simp [read_csv_safely, read_csv, utf8Decode, parseCsv, splitOn, cellToVal,
          parseNum, allDigits, digitsVal, digitVal, strOf, List.range_succ]⟩)
    (by simp [read_csv_safely, read_csv, utf8Decode, isCont, decodeSjis])
  exact h.1

/-- The head of a nonempty list is a member. -/
theorem headD_mem (s : List ℚ) (h : s ≠ []) : s.headD 0 ∈ s := by
  cases s with
  | nil => exact absurd rfl h
  | cons a t => exact List.mem_cons_self a t

/-- The head of a nonempty sorted list bounds every member from below. -/
theorem sorted_headD_le (s : List ℚ) (hs : s.Sorted (· ≤ ·)) (x : ℚ) (hx : x ∈ s) :
    s.headD 0 ≤ x := by
  cases s with
  | nil => simp at hx
  | cons a t =>
    rw [List.sorted_cons] at hs
    rcases List.mem_cons.mp hx with h | h
    · exact le_of_eq h.symm
    · exact hs.1 x h

/-- The last element of a nonempty list is a member. -/
theorem getLastD_mem (s : List ℚ) (h : s ≠ []) : s.getLastD 0 ∈ s := by
  induction s with
  | nil => exact absurd rfl h
  | cons a t ih =>
    cases t with
    | nil => simp
    | cons b u =>
      rw [List.getLastD_cons]
      exact List.mem_cons_of_mem a (ih (by simp))

/-- The last element of a nonempty sorted list bounds every member from
above. -/
theorem le_sorted_getLastD (s : List ℚ) : s.Sorted (· ≤ ·) → ∀ x ∈ s, x ≤ s.getLastD 0 := by
  induction s with
  | nil =>
    intro _ x hx
    simp at hx
  | cons a t ih =>
    intro hs x hx
    rw [List.sorted_cons] at hs
    cases t with
    | nil =>
      simp at hx
      simp [hx]
    | cons b u =>
      rw [List.getLastD_cons]
      rcases List.mem_cons.mp hx with h | h
      · subst h
        exact le_trans (hs.1 b (List.mem_cons_self b u))
          (ih hs.2 b (List.mem_cons_self b u))
      · exact ih hs.2 x h

/-- Filtering a column down to its numeric cells does not change dropna. -/
theorem dropna_filter_num (l : List Val) :
    dropna (l.filter fun v => match v with | .num _ => true | _ => false) = dropna l := by
  induction l with
  | nil => rfl
  | cons v rest ih =>
    cases v with
    | num q => simpa [List.filter, dropna] using ih
    | null => simpa [List.filter, dropna] using ih
    | str s => simpa [List.filter, dropna] using ih

/-- The variance field of describe(): with at least two observations the
exact ddof = 1 sample variance, otherwise the 0/0 NaN. -/
theorem describe_var_eq (l : List Val) :
    (describe l).var = if 2 ≤ (dropna l).length then
      some ((((dropna l).map fun x =>
          (x - (dropna l).sum / ((dropna l).length : ℚ)) ^ 2).sum)
        / (((dropna l).length : ℚ) - 1))
    else none := rfl

/-- C3: for a column with at least one non-null value, describe() reports
the count of non-null values (not the row count), the mean of the non-null
values (count * mean = their sum), their minimum and maximum, a standard
deviation (with at least two observations the nonnegative square root of
the reported variance exists; with fewer pandas reports the NaN std, which
has no real value), and is computed entirely on the non-null values
(inserting or deleting nulls does not change any reported statistic); for
the column [1,2,3,4,5]: count = 5, mean = 3, min = 1, 25th/50th/75th
percentiles = 2/3/4, max = 5; and with a null inserted the count stays 5
while the column has 6 rows. -/
theorem C3_describe_nonnull_stats (l : List Val) (hne : dropna l ≠ []) :
    ((describe l).count = (dropna l).length
    ∧ (∀ q : ℚ, q ∈ dropna l ↔ Val.num q ∈ l)
    ∧ (describe l).mean * ((describe l).count : ℚ) = (dropna l).sum
    ∧ (describe l).min ∈ dropna l
    ∧ (∀ x ∈ dropna l, (describe l).min ≤ x)
    ∧ (describe l).max ∈ dropna l
    ∧ (∀ x ∈ dropna l, x ≤ (describe l).max)
    ∧ (2 ≤ (dropna l).length → ∃ s : ℝ, (describe l).stdIs s)
    ∧ ((dropna l).length < 2 → ¬ ∃ s : ℝ, (describe l).stdIs s)
    ∧ describe l = describe (l.filter fun v => match v with | .num _ => true | _ => false))
    ∧ describe [Val.num 1, .num 2, .num 3, .num 4, .num 5]
        = ⟨5, 3, some (5/2), 1, 2, 3, 4, 5⟩
    ∧ (describe [Val.num 1, .null, .num 2, .num 3, .num 4, .num 5]).count = 5
    ∧ [Val.num 1, .null, .num 2, .num 3, .num 4, .num 5].length = 6 := by
  have hsv : sortedVals l ≠ [] := by
    intro h
    have := sortedVals_perm l
    rw [h] at this
    exact hne (this.nil_eq).symm
  have hn : (0 : ℚ) < ((dropna l).length : ℚ) := by
    have : 0 < (dropna l).length := List.length_pos.mpr hne
    exact_mod_cast this
  refine ⟨⟨rfl, fun q => dropna_mem l q, ?_, ?_, ?_, ?_, ?_, ?_, ?_, ?_⟩, ?_, rfl, rfl⟩
  · show (dropna l).sum / ((dropna l).length : ℚ) * ((dropna l).length : ℚ) = (dropna l).sum
    exact div_mul_cancel₀ _ (ne_of_gt hn)
  · exact (sortedVals_perm l).mem_iff.mp (headD_mem _ hsv)
  · intro x hx
    exact sorted_headD_le _ (sortedVals_sorted l) x ((sortedVals_perm l).mem_iff.mpr hx)
  · exact (sortedVals_perm l).mem_iff.mp (getLastD_mem _ hsv)
  · intro x hx
    exact le_sorted_getLastD _ (sortedVals_sorted l) x ((sortedVals_perm l).mem_iff.mpr hx)
  · intro h2
    have hvar : (describe l).var = some ((((dropna l).map fun x =>
        (x - (dropna l).sum / ((dropna l).length : ℚ)) ^ 2).sum)
        / (((dropna l).length : ℚ) - 1)) := by
      rw [describe_var_eq, if_pos h2]
    have hnn : (0 : ℚ) ≤ (((dropna l).map fun x =>
        (x - (dropna l).sum / ((dropna l).length : ℚ)) ^ 2).sum)
        / (((dropna l).length : ℚ) - 1) := by
      apply div_nonneg
      · apply List.sum_nonneg
        intro x hx
        simp only [List.mem_map] at hx
        obtain ⟨y, -, hy⟩ := hx
        rw [← hy]
        positivity
      · have : (2 : ℚ) ≤ ((dropna l).length : ℚ) := by exact_mod_cast h2
        linarith
    exact ⟨Real.sqrt _, Real.sqrt_nonneg _, _, hvar, Real.sq_sqrt (by exact_mod_cast hnn)⟩
  · rintro hlt ⟨s, -, v, hveq, -⟩
    rw [describe_var_eq, if_neg (by omega)] at hveq
    exact Option.noConfusion hveq
  · show describe l = _
    unfold describe sortedVals
    rw [dropna_filter_num]
  · norm_num [describe, dropna, sortedVals, List.insertionSort, List.orderedInsert,
      quantileSorted]

/-- C3 witness: the column [1, null, 2] has 3 rows but count 2, mean 3/2
(so mean times count is the sum 3), min 1 and max 2, and with its two
observations a reported standard deviation exists. -/
theorem C3_describe_nonnull_stats_witness :
    (describe [Val.num 1, .null, .num 2]).count = (dropna [Val.num 1, .null, .num 2]).length
    ∧ (describe [Val.num 1, .null, .num 2]).mean
        * ((describe [Val.num 1, .null, .num 2]).count : ℚ)
        = (dropna [Val.num 1, .null, .num 2]).sum
    ∧ (describe [Val.num 1, .null, .num 2]).min ∈ dropna [Val.num 1, .null, .num 2]
    ∧ (describe [Val.num 1, .null, .num 2]).max ∈ dropna [Val.num 1, .null, .num 2]
    ∧ (∃ s : ℝ, (describe [Val.num 1, .null, .num 2]).stdIs s) := by
  have h := C3_describe_nonnull_stats [Val.num 1, .null, .num 2] (by simp [dropna])
  exact ⟨h.1.1, h.1.2.2.1, h.1.2.2.2.1, h.1.2.2.2.2.2.1,
    h.1.2.2.2.2.2.2.2.1 (by decide)⟩

/-- Sum of squared differences of x against each element, expanded. -/
theorem sum_sub_sq (x : ℚ) (r : List ℚ) :
    (r.map fun y => (x - y) ^ 2).sum
      = (r.length : ℚ) * x ^ 2 - 2 * x * r.sum + (r.map fun y => y ^ 2).sum := by
  induction r with
  | nil => simp
  | cons b u ih =>
    simp only [List.map_cons, List.sum_cons, List.length_cons, ih]
    push_cast
    ring

/-- Sum over all ordered pairs of the squared difference. -/
def pairsSq : List ℚ → ℚ
  | [] => 0
  | x :: r => ((r.map fun y => (x - y) ^ 2).sum) + pairsSq r

/-- The Lagrange identity relating the scaled second moment n*Σx² - (Σx)²
to the sum of squared pairwise differences. -/
theorem lagrange (xs : List ℚ) :
    (xs.length : ℚ) * (xs.map fun x => x ^ 2).sum - xs.sum ^ 2 = pairsSq xs := by
  induction xs with
  | nil => simp [pairsSq]
  | cons x r ih =>
    rw [pairsSq, ← ih, sum_sub_sq]
    simp only [List.map_cons, List.sum_cons, List.length_cons]
    push_cast
    ring

theorem pairsSq_nonneg (xs : List ℚ) : 0 ≤ pairsSq xs := by
  induction xs with
  | nil => exact le_refl 0
  | cons x r ih =>
    rw [pairsSq]
    have h1 : 0 ≤ (r.map fun y => (x - y) ^ 2).sum := by
      apply List.sum_nonneg
      intro z hz
      simp only [List.mem_map] at hz
      obtain ⟨y, -, hy⟩ := hz
      rw [← hy]
      positivity
    linarith

/-- A list with two distinct members has positive pairsSq. -/
theorem pairsSq_pos (xs : List ℚ) (h : ∃ a ∈ xs, ∃ b ∈ xs, a ≠ b) : 0 < pairsSq xs := by
  induction xs with
  | nil =>
    obtain ⟨a, ha, -⟩ := h
    simp at ha
  | cons x r ih =>
    obtain ⟨a, ha, b, hb, hab⟩ := h
    have hsum : 0 ≤ (r.map fun y => (x - y) ^ 2).sum := by
      apply List.sum_nonneg
      intro z hz
      simp only [List.mem_map] at hz
      obtain ⟨y, -, hy⟩ := hz
      rw [← hy]
      positivity
    rw [pairsSq]
    rcases List.mem_cons.mp ha with hax | har
    · rcases List.mem_cons.mp hb with hbx | hbr
      · exact absurd (hax.trans hbx.symm) hab
      · have hterm : (0 : ℚ) < (x - b) ^ 2 := by
          have hxb : x ≠ b := fun hxb => hab (hax.trans hxb)
          have : x - b ≠ 0 := sub_ne_zero_of_ne hxb
          positivity
        have hin : (x - b) ^ 2 ∈ r.map fun y => (x - y) ^ 2 :=
          List.mem_map.mpr ⟨b, hbr, rfl⟩
        have hle : (x - b) ^ 2 ≤ (r.map fun y => (x - y) ^ 2).sum := by
          apply List.single_le_sum _ _ hin
          intro z hz
          simp only [List.mem_map] at hz
          obtain ⟨y, -, hy⟩ := hz
          rw [← hy]
          positivity
        have := pairsSq_nonneg r
        linarith
    · rcases List.mem_cons.mp hb with hbx | hbr
      · have hterm : (0 : ℚ) < (x - a) ^ 2 := by
          have hxa : x ≠ a := fun hxa => hab (hxa.symm.trans hbx.symm)
          have : x - a ≠ 0 := sub_ne_zero_of_ne hxa
          positivity
        have hin : (x - a) ^ 2 ∈ r.map fun y => (x - y) ^ 2 :=
          List.mem_map.mpr ⟨a, har, rfl⟩
        have hle : (x - a) ^ 2 ≤ (r.map fun y => (x - y) ^ 2).sum := by
          apply List.single_le_sum _ _ hin
          intro z hz
          simp only [List.mem_map] at hz
          obtain ⟨y, -, hy⟩ := hz
          rw [← hy]
          positivity
        have := pairsSq_nonneg r
        linarith
      · have := ih ⟨a, har, b, hbr, hab⟩
        linarith

theorem corrOfPairs_sxx (ps : List (ℚ × ℚ)) :
    (corrOfPairs ps).sxx = pairsSq (ps.map Prod.fst) := by
  rw [← lagrange, List.length_map, List.map_map]
  rfl

theorem corrOfPairs_syy (ps : List (ℚ × ℚ)) :
    (corrOfPairs ps).syy = pairsSq (ps.map Prod.snd) := by
  rw [← lagrange, List.length_map, List.map_map]
  rfl

/-- Sum of a quadratic function of the first components, expanded. -/
theorem sum_map_quad (l : List (ℚ × ℚ)) (c1 c2 c3 : ℚ) :
    (l.map fun p => c1 * p.1 ^ 2 + c2 * p.1 + c3).sum
      = c1 * (l.map fun p => p.1 ^ 2).sum + c2 * (l.map fun p => p.1).sum
        + (l.length : ℚ) * c3 := by
  induction l with
  | nil => simp
  | cons a t ih =>
    simp only [List.map_cons, List.sum_cons, List.length_cons, ih]
    push_cast
    ring

/-- Matching a column against itself pairs each non-null value with
itself. -/
theorem pairComplete_self (xs : List Val) :
    pairComplete xs xs = (dropna xs).map fun a => (a, a) := by
  induction xs with
  | nil => rfl
  | cons v r ih =>
    cases v with
    | num q =>
      show pairComplete (Val.num q :: r) (Val.num q :: r) = _
      unfold pairComplete at ih ⊢
      simp only [List.zip_cons_cons, List.filterMap_cons, dropna, List.map_cons]
      rw [ih]
    | null =>
      unfold pairComplete at ih ⊢
      simp only [List.zip_cons_cons, List.filterMap_cons, dropna]
      rw [ih]
    | str s =>
      unfold pairComplete at ih ⊢
      simp only [List.zip_cons_cons, List.filterMap_cons, dropna]
      rw [ih]

/-- The diagonal cell for a column with two distinct non-null values is
1.0. -/
theorem corrEntry_self_hasValue_one (xs : List Val)
    (h : ∃ a ∈ dropna xs, ∃ b ∈ dropna xs, a ≠ b) :
    (corrEntry xs xs).hasValue 1 := by
  have hdup : Prod.fst ∘ (fun a : ℚ => (a, a)) = id := rfl
  have hsxx : (corrEntry xs xs).sxx = pairsSq (dropna xs) := by
    unfold corrEntry
    rw [corrOfPairs_sxx, pairComplete_self, List.map_map, hdup, List.map_id]
  have hsyy : (corrEntry xs xs).syy = pairsSq (dropna xs) := by
    have hdup2 : Prod.snd ∘ (fun a : ℚ => (a, a)) = id := rfl
    unfold corrEntry
    rw [corrOfPairs_syy, pairComplete_self, List.map_map, hdup2, List.map_id]
  have hsxy : (corrEntry xs xs).sxy = pairsSq (dropna xs) := by
    show ((pairComplete xs xs).length : ℚ)
        * ((pairComplete xs xs).map fun p => p.1 * p.2).sum
        - ((pairComplete xs xs).map fun p => p.1).sum
          * ((pairComplete xs xs).map fun p => p.2).sum = _
    rw [pairComplete_self, List.map_map, List.map_map, List.map_map, List.length_map]
    have hc1 : ((fun p : ℚ × ℚ => p.1 * p.2) ∘ fun a : ℚ => (a, a)) = fun a : ℚ => a ^ 2 := by
      funext a
      show a * a = a ^ 2
      ring
    have hc2 : ((fun p : ℚ × ℚ => p.1) ∘ fun a : ℚ => (a, a)) = id := rfl
    have hc3 : ((fun p : ℚ × ℚ => p.2) ∘ fun a : ℚ => (a, a)) = id := rfl
    rw [hc1, hc2, hc3, List.map_id, ← lagrange]
    ring
  have hpos : 0 < pairsSq (dropna xs) := pairsSq_pos _ h
  refine ⟨?_, ?_⟩
  · rw [hsxx, hsyy]
    exact mul_pos hpos hpos
  · rw [hsxx, hsyy, hsxy, one_mul]
    have hnn : (0 : ℝ) ≤ (pairsSq (dropna xs) : ℝ) := by
      exact_mod_cast pairsSq_nonneg (dropna xs)
    rw [Real.sqrt_mul_self hnn]

/-- The cell for a pair of columns in exact positive linear relation
(second = α * first + β on every pairwise-complete row, α > 0, first not
constant) is 1.0. -/
theorem corrEntry_linear_hasValue_one (xs ys : List Val) (α β : ℚ) (hα : 0 < α)
    (hlin : ∀ p ∈ pairComplete xs ys, p.2 = α * p.1 + β)
    (hnc : ∃ p ∈ pairComplete xs ys, ∃ r ∈ pairComplete xs ys, p.1 ≠ r.1) :
    (corrEntry xs ys).hasValue 1 := by
  have hcsq : ((fun x : ℚ => x ^ 2) ∘ Prod.fst) = fun p : ℚ × ℚ => p.1 ^ 2 := rfl
  have hnc2 : ∃ a ∈ (pairComplete xs ys).map Prod.fst,
      ∃ b ∈ (pairComplete xs ys).map Prod.fst, a ≠ b := by
    obtain ⟨p, hp, r, hr, hpr⟩ := hnc
    exact ⟨p.1, List.mem_map_of_mem _ hp, r.1, List.mem_map_of_mem _ hr, hpr⟩
  have hpos : 0 < pairsSq ((pairComplete xs ys).map Prod.fst) := pairsSq_pos _ hnc2
  have h1 : ((pairComplete xs ys).map fun p => p.1 * p.2)
      = (pairComplete xs ys).map fun p => α * p.1 ^ 2 + β * p.1 + 0 := by
    apply List.map_congr_left
    intro p hp
    rw [hlin p hp]
    ring
  have h2 : ((pairComplete xs ys).map fun p => p.2)
      = (pairComplete xs ys).map fun p => (0 : ℚ) * p.1 ^ 2 + α * p.1 + β := by
    apply List.map_congr_left
    intro p hp
    rw [hlin p hp]
    ring
  have h3 : ((pairComplete xs ys).map fun p => p.2 ^ 2)
      = (pairComplete xs ys).map fun p => α ^ 2 * p.1 ^ 2 + (2 * α * β) * p.1 + β ^ 2 := by
    apply List.map_congr_left
    intro p hp
    rw [hlin p hp]
    ring
  have hsxx : (corrEntry xs ys).sxx = pairsSq ((pairComplete xs ys).map Prod.fst) :=
    corrOfPairs_sxx _
  have hsxy : (corrEntry xs ys).sxy = α * pairsSq ((pairComplete xs ys).map Prod.fst) := by
    show ((pairComplete xs ys).length : ℚ)
        * ((pairComplete xs ys).map fun p => p.1 * p.2).sum
        - ((pairComplete xs ys).map fun p => p.1).sum
          * ((pairComplete xs ys).map fun p => p.2).sum = _
    rw [h1, h2, sum_map_quad, sum_map_quad, ← lagrange, List.length_map, List.map_map, hcsq]
    ring
  have hsyy : (corrEntry xs ys).syy
      = α ^ 2 * pairsSq ((pairComplete xs ys).map Prod.fst) := by
    show ((pairComplete xs ys).length : ℚ)
        * ((pairComplete xs ys).map fun p => p.2 ^ 2).sum
        - ((pairComplete xs ys).map fun p => p.2).sum ^ 2 = _
    rw [h2, h3, sum_map_quad, sum_map_quad, ← lagrange, List.length_map, List.map_map, hcsq]
    ring
  refine ⟨?_, ?_⟩
  · rw [hsxx, hsyy]
    have hα2 : (0 : ℚ) < α ^ 2 := by positivity
    calc (0 : ℚ) < pairsSq ((pairComplete xs ys).map Prod.fst)
        * (α ^ 2 * pairsSq ((pairComplete xs ys).map Prod.fst)) := by positivity
      _ = _ := rfl
  · rw [hsxx, hsyy, hsxy, one_mul]
    push_cast
    have hsq : ((pairsSq ((pairComplete xs ys).map Prod.fst) : ℝ))
        * ((α : ℝ) ^ 2 * (pairsSq ((pairComplete xs ys).map Prod.fst) : ℝ))
        = ((α : ℝ) * (pairsSq ((pairComplete xs ys).map Prod.fst) : ℝ)) ^ 2 := by
      ring
    rw [hsq, Real.sqrt_sq]
    have h0α : (0 : ℝ) ≤ (α : ℝ) := by exact_mod_cast le_of_lt hα
    have h0s : (0 : ℝ) ≤ (pairsSq ((pairComplete xs ys).map Prod.fst) : ℝ) := by
      exact_mod_cast pairsSq_nonneg _
    positivity

/-- Swapping the two columns swaps the paired observations. -/
theorem pairComplete_swap (xs ys : List Val) :
    pairComplete ys xs = (pairComplete xs ys).map Prod.swap := by
  unfold pairComplete
  have hz : ys.zip xs = (xs.zip ys).map Prod.swap := (List.zip_swap xs ys).symm
  rw [hz, List.filterMap_map, List.map_filterMap]
  congr 1
  funext p
  obtain ⟨u, v⟩ := p
  cases u <;> cases v <;> rfl

/-- Swapping the two columns transposes the cell's moments. -/
theorem corrEntry_symm (xs ys : List Val) :
    corrEntry ys xs = (corrEntry xs ys).transpose := by
  unfold corrEntry CorrEntry.transpose
  rw [pairComplete_swap]
  unfold corrOfPairs
  simp only [List.map_map, List.length_map, CorrEntry.mk.injEq]
  have hc1 : ((fun p : ℚ × ℚ => p.1 * p.2) ∘ Prod.swap) = fun p : ℚ × ℚ => p.2 * p.1 := rfl
  have hc2 : ((fun p : ℚ × ℚ => p.1) ∘ Prod.swap) = fun p : ℚ × ℚ => p.2 := rfl
  have hc3 : ((fun p : ℚ × ℚ => p.2) ∘ Prod.swap) = fun p : ℚ × ℚ => p.1 := rfl
  have hc4 : ((fun p : ℚ × ℚ => p.1 ^ 2) ∘ Prod.swap) = fun p : ℚ × ℚ => p.2 ^ 2 := rfl
  have hc5 : ((fun p : ℚ × ℚ => p.2 ^ 2) ∘ Prod.swap) = fun p : ℚ × ℚ => p.1 ^ 2 := rfl
  have hmul : ((pairComplete xs ys).map fun p => p.2 * p.1)
      = (pairComplete xs ys).map fun p => p.1 * p.2 := by
    apply List.map_congr_left
    intro p _
    ring
  rw [hc1, hc2, hc3, hc4, hc5, hmul]
  exact ⟨by ring, rfl, rfl⟩

/-- The transposed cell displays the same value. -/
theorem hasValue_transpose (e : CorrEntry) (r : ℝ) :
    e.transpose.hasValue r ↔ e.hasValue r := by
  unfold CorrEntry.transpose CorrEntry.hasValue
  dsimp only
  rw [mul_comm e.syy e.sxx, mul_comm ((e.syy : ℚ) : ℝ) ((e.sxx : ℚ) : ℝ)]

/-- The (i, j) cell of the correlation heatmap matrix. -/
def matEntry (df : Dataset) (i j : ℕ) : CorrEntry :=
  ((corrMatrix df).getD i []).getD j ⟨0, 0, 0⟩

/-- The values of the i-th numeric column. -/
def colAt (df : Dataset) (i : ℕ) : List Val :=
  colValues df ((numericCols df).getD i "")

/-- In-bounds cells of the matrix are the pairwise correlation entries of
the numeric columns in order. -/
theorem matEntry_eq (df : Dataset) (i j : ℕ) (hi : i < (numericCols df).length)
    (hj : j < (numericCols df).length) :
    matEntry df i j = corrEntry (colAt df i) (colAt df j) := by
  unfold matEntry corrMatrix colAt
  dsimp only
  simp only [List.getD_eq_getElem?_getD, List.getElem?_map, List.getElem?_eq_getElem hi,
    List.getElem?_eq_getElem hj, Option.map_some', Option.getD_some]

/-- C4 (amended): for every Dataset with at least two numeric columns, the
correlation computation returns a square matrix with rows and columns in
numeric-column order whose (i,j) cell is the pairwise Pearson entry of
columns i and j; the matrix is symmetric (the (j,i) cell is the transpose
of the (i,j) cell and displays the same value); the diagonal cell of every
column having two distinct non-null values equals 1.0 (for a constant
column the diagonal cell is the 0/0 NaN cell, which is what the
counterexample exhibits); and the cell of two columns in exact positive
linear relation (e.g. B = 2*A) with nonconstant A equals 1.0. -/
theorem C4_corr_matrix_properties (df : Dataset) (_h2 : 2 ≤ (numericCols df).length) :
    ((corrMatrix df).length = (numericCols df).length
      ∧ ∀ row ∈ corrMatrix df, row.length = (numericCols df).length)
    ∧ (∀ i j, i < (numericCols df).length → j < (numericCols df).length →
        matEntry df i j = corrEntry (colAt df i) (colAt df j))
    ∧ (∀ i j, i < (numericCols df).length → j < (numericCols df).length →
        matEntry df j i = (matEntry df i j).transpose
        ∧ ∀ r : ℝ, (matEntry df j i).hasValue r ↔ (matEntry df i j).hasValue r)
    ∧ (∀ i, i < (numericCols df).length →
        (∃ a ∈ dropna (colAt df i), ∃ b ∈ dropna (colAt df i), a ≠ b) →
        (matEntry df i i).hasValue 1)
    ∧ (∀ i j, i < (numericCols df).length → j < (numericCols df).length →
        ∀ α β : ℚ, 0 < α →
        (∀ p ∈ pairComplete (colAt df i) (colAt df j), p.2 = α * p.1 + β) →
        (∃ p ∈ pairComplete (colAt df i) (colAt df j),
          ∃ q ∈ pairComplete (colAt df i) (colAt df j), p.1 ≠ q.1) →
        (matEntry df i j).hasValue 1) := by
  refine ⟨⟨?_, ?_⟩, ?_, ?_, ?_, ?_⟩
  · unfold corrMatrix
    exact List.length_map _ _
  · intro row hrow
    unfold corrMatrix at hrow
    simp only [List.mem_map] at hrow
    obtain ⟨a, -, ha⟩ := hrow
    rw [← ha]
    exact List.length_map _ _
  · intro i j hi hj
    exact matEntry_eq df i j hi hj
  · intro i j hi hj
    rw [matEntry_eq df j i hj hi, matEntry_eq df i j hi hj, corrEntry_symm]
    exact ⟨rfl, fun r => hasValue_transpose _ r⟩
  · intro i hi h
    rw [matEntry_eq df i i hi hi]
    exact corrEntry_self_hasValue_one _ h
  · intro i j hi hj α β hα hlin hnc
    rw [matEntry_eq df i j hi hj]
    exact corrEntry_linear_hasValue_one _ _ α β hα hlin hnc

/-- C4 counterexample: the Dataset with numeric columns a = [1,1] (a
constant column) and b = [1,2] has two numeric columns, yet the diagonal
cell for a is the all-zero moment cell — pandas divides 0 by 0 and shows
NaN — so it does not equal 1.0 (no real number is its value), refuting
"diagonal entries all equal 1.0" as stated. -/
theorem C4_counterexample_constant_diag :
    2 ≤ (numericCols ⟨[⟨"a", [.num 1, .num 1]⟩, ⟨"b", [.num 1, .num 2]⟩]⟩).length
    ∧ matEntry ⟨[⟨"a", [.num 1, .num 1]⟩, ⟨"b", [.num 1, .num 2]⟩]⟩ 0 0 = ⟨0, 0, 0⟩
    ∧ ∀ r : ℝ,
        ¬ (matEntry ⟨[⟨"a", [.num 1, .num 1]⟩, ⟨"b", [.num 1, .num 2]⟩]⟩ 0 0).hasValue r := by
  have hm : matEntry ⟨[⟨"a", [.num 1, .num 1]⟩, ⟨"b", [.num 1, .num 2]⟩]⟩ 0 0 = ⟨0, 0, 0⟩ := by
    norm_num [matEntry, corrMatrix, numericCols, Column.isNumericB, colValues,
      corrEntry, corrOfPairs, pairComplete, List.zip_cons_cons, List.filterMap_cons,
      List.find?]
  refine ⟨by norm_num [numericCols, Column.isNumericB], hm, ?_⟩
  intro r hr
  obtain ⟨hpos, -⟩ := hr
  rw [hm] at hpos
  norm_num at hpos

/-- C4 witness: for the Dataset with columns a = [1,2] and b = 2*a = [2,4]
the matrix is 2x2, the diagonal cell of the nonconstant column a is 1.0,
and the off-diagonal cell of the perfectly linearly related pair is
1.0. -/
theorem C4_corr_matrix_properties_witness :
    (corrMatrix ⟨[⟨"a", [.num 1, .num 2]⟩, ⟨"b", [.num 2, .num 4]⟩]⟩).length = 2
    ∧ (matEntry ⟨[⟨"a", [.num 1, .num 2]⟩, ⟨"b", [.num 2, .num 4]⟩]⟩ 0 0).hasValue 1
    ∧ (matEntry ⟨[⟨"a", [.num 1, .num 2]⟩, ⟨"b", [.num 2, .num 4]⟩]⟩ 0 1).hasValue 1 := by
  have hlen : (numericCols ⟨[⟨"a", [.num 1, .num 2]⟩, ⟨"b", [.num 2, .num 4]⟩]⟩).length = 2 := by
    norm_num [numericCols, Column.isNumericB]
  have h := C4_corr_matrix_properties ⟨[⟨"a", [.num 1, .num 2]⟩, ⟨"b", [.num 2, .num 4]⟩]⟩
    (by rw [hlen])
  have hcol0 : dropna (colAt ⟨[⟨"a", [.num 1, .num 2]⟩, ⟨"b", [.num 2, .num 4]⟩]⟩ 0)
      = [1, 2] := rfl
  have hpc : pairComplete (colAt ⟨[⟨"a", [.num 1, .num 2]⟩, ⟨"b", [.num 2, .num 4]⟩]⟩ 0)
      (colAt ⟨[⟨"a", [.num 1, .num 2]⟩, ⟨"b", [.num 2, .num 4]⟩]⟩ 1)
      = [(1, 2), (2, 4)] := rfl
  refine ⟨by rw [h.1.1, hlen], ?_, ?_⟩
  · apply h.2.2.2.1 0 (by rw [hlen]; norm_num)
    rw [hcol0]
    exact ⟨1, by norm_num, 2, by norm_num, by norm_num⟩
  · apply h.2.2.2.2 0 1 (by rw [hlen]; norm_num) (by rw [hlen]; norm_num) 2 0 (by norm_num)
    · rw [hpc]
      intro p hp
      rcases List.mem_cons.mp hp with rfl | hp2
      · norm_num
      · rcases List.mem_cons.mp hp2 with rfl | hp3
        · norm_num
        · simp at hp3
    · rw [hpc]
      refine ⟨(1, 2), by norm_num, (2, 4), by norm_num, by norm_num⟩
